import Mathlib

/-!
Verification development for the clinical-certificate extraction backend
(`Backend/app.py`).

The Python source is shallowly embedded: pure helpers become Lean functions,
and the two outbound collaborators (the PDF rasterizer `pdf2image` and the
OpenAI / registry network calls) are modelled as an explicit environment
record, so that every code path of the pipeline is a total Lean function of
the environment and the request data.

JSON values are modelled by an inductive `Json`; `json.loads` is embedded as
a fuel-bounded recursive-descent parser over the character list of the input
(the fuel bound is generous enough for every input: each recursion step
consumes at least one character).  Python `dict` objects are modelled as
insertion-ordered association lists (`PyDict`), with `dict.update` embedded
including its behaviour on non-dict arguments (a sequence of key/value
pairs is merged pairwise, mutating the dict up to the first bad element;
any other non-dict argument raises and leaves the dict unchanged).
Known deliberate approximations, none reachable by the statements proved
below: Python key equality across numeric types (`1 == 1.0`) is modelled
as structural equality of `Json` terms; lone UTF-16 surrogate escapes and
non-Latin-1 Unicode whitespace are not modelled; the regex class `\d` and
JSON digits are read as the ASCII digits.
-/

namespace Backend

/-- A JSON value as produced by `json.loads`.  Number literals keep their
lexeme (no claim below depends on numeric value identity). -/
inductive Json where
  | null
  | bool (b : Bool)
  | num (lex : String)
  | str (s : String)
  | arr (elems : List Json)
  | obj (fields : List (String × Json))

mutual

def jsonBeq : Json → Json → Bool
  | .null, .null => true
  | .bool a, .bool b => a == b
  | .num a, .num b => a == b
  | .str a, .str b => a == b
  | .arr a, .arr b => jsonBeqList a b
  | .obj a, .obj b => jsonBeqFields a b
  | _, _ => false

def jsonBeqList (us vs : List Json) : Bool :=
  match us, vs with
  | [], [] => true
  | u :: us₂, v :: vs₂ => jsonBeq u v && jsonBeqList us₂ vs₂
  | _, _ => false

def jsonBeqFields (fs gs : List (String × Json)) : Bool :=
  match fs, gs with
  | [], [] => true
  | f :: fs₂, g :: gs₂ => f.1 == g.1 && (jsonBeq f.2 g.2 && jsonBeqFields fs₂ gs₂)
  | _, _ => false

end

mutual

theorem jsonBeq_iff : ∀ a b, jsonBeq a b = true ↔ a = b
  | .null, .null => by simp [jsonBeq]
  | .null, .bool _ => by simp [jsonBeq]
  | .null, .num _ => by simp [jsonBeq]
  | .null, .str _ => by simp [jsonBeq]
  | .null, .arr _ => by simp [jsonBeq]
  | .null, .obj _ => by simp [jsonBeq]
  | .bool _, .null => by simp [jsonBeq]
  | .bool _, .bool _ => by simp [jsonBeq]
  | .bool _, .num _ => by simp [jsonBeq]
  | .bool _, .str _ => by simp [jsonBeq]
  | .bool _, .arr _ => by simp [jsonBeq]
  | .bool _, .obj _ => by simp [jsonBeq]
  | .num _, .null => by simp [jsonBeq]
  | .num _, .bool _ => by simp [jsonBeq]
  | .num _, .num _ => by simp [jsonBeq]
  | .num _, .str _ => by simp [jsonBeq]
  | .num _, .arr _ => by simp [jsonBeq]
  | .num _, .obj _ => by simp [jsonBeq]
  | .str _, .null => by simp [jsonBeq]
  | .str _, .bool _ => by simp [jsonBeq]
  | .str _, .num _ => by simp [jsonBeq]
  | .str _, .str _ => by simp [jsonBeq]
  | .str _, .arr _ => by simp [jsonBeq]
  | .str _, .obj _ => by simp [jsonBeq]
  | .arr _, .null => by simp [jsonBeq]
  | .arr _, .bool _ => by simp [jsonBeq]
  | .arr _, .num _ => by simp [jsonBeq]
  | .arr _, .str _ => by simp [jsonBeq]
  | .arr a, .arr b => by simp [jsonBeq, jsonBeqList_iff a b]
  | .arr _, .obj _ => by simp [jsonBeq]
  | .obj _, .null => by simp [jsonBeq]
  | .obj _, .bool _ => by simp [jsonBeq]
  | .obj _, .num _ => by simp [jsonBeq]
  | .obj _, .str _ => by simp [jsonBeq]
  | .obj _, .arr _ => by simp [jsonBeq]
  | .obj a, .obj b => by simp [jsonBeq, jsonBeqFields_iff a b]

theorem jsonBeqList_iff : ∀ xs ys, jsonBeqList xs ys = true ↔ xs = ys
  | [], [] => by simp [jsonBeqList]
  | [], _ :: _ => by simp [jsonBeqList]
  | _ :: _, [] => by simp [jsonBeqList]
  | x :: xs, y :: ys => by
      simp [jsonBeqList, jsonBeq_iff x y, jsonBeqList_iff xs ys]

theorem jsonBeqFields_iff : ∀ xs ys, jsonBeqFields xs ys = true ↔ xs = ys
  | [], [] => by simp [jsonBeqFields]
  | [], _ :: _ => by simp [jsonBeqFields]
  | _ :: _, [] => by simp [jsonBeqFields]
  | f :: fs, g :: gs => by
      simp [jsonBeqFields, jsonBeq_iff f.2 g.2, jsonBeqFields_iff fs gs, Prod.ext_iff,
        and_assoc]

end

instance : DecidableEq Json := fun a b =>
  decidable_of_iff (jsonBeq a b = true) (jsonBeq_iff a b)

/-! ### The `json.loads` embedding -/

/-- JSON inter-token whitespace, exactly the set skipped by `json.loads`. -/
def jsonWs (c : Char) : Bool :=
  c == ' ' || c == '\t' || c == '\n' || c == '\r'

def skipWs : List Char → List Char
  | [] => []
  | c :: cs => if jsonWs c then skipWs cs else c :: cs

def dropLiteral (lit : List Char) (cs : List Char) : Option (List Char) :=
  if lit.isPrefixOf cs then some (cs.drop lit.length) else none

/-- Leading integer part of a JSON number: `0`, or a nonzero digit followed
by digits (leading zeros are a parse error in `json.loads`). -/
def parseIntPart : List Char → Option (List Char × List Char)
  | [] => none
  | c :: cs =>
    if c == '0' then some ([c], cs)
    else if c.isDigit then
      let sp := cs.span Char.isDigit
      some (c :: sp.1, sp.2)
    else none

def parseFracPart : List Char → List Char × List Char
  | [] => ([], [])
  | c :: cs =>
    if c == '.' then
      match cs.span Char.isDigit with
      | ([], _) => ([], c :: cs)
      | (d, r) => (c :: d, r)
    else ([], c :: cs)

def parseExpPart (cs : List Char) : List Char × List Char :=
  match cs with
  | [] => ([], [])
  | c :: rest =>
    if c == 'e' || c == 'E' then
      let sr : List Char × List Char :=
        match rest with
        | s :: r₂ => if s == '+' || s == '-' then ([s], r₂) else ([], rest)
        | [] => ([], rest)
      match sr.2.span Char.isDigit with
      | ([], _) => ([], cs)
      | (d, r) => (c :: (sr.1 ++ d), r)
    else ([], cs)

/-- A JSON number literal; returns the lexeme and the remaining input. -/
def parseNumber (cs : List Char) : Option (String × List Char) :=
  let sg : List Char × List Char :=
    match cs with
    | '-' :: r => (['-'], r)
    | _ => ([], cs)
  match parseIntPart sg.2 with
  | none => none
  | some (ip, r₁) =>
      let fp := parseFracPart r₁
      let ep := parseExpPart fp.2
      some (String.mk (sg.1 ++ ip ++ fp.1 ++ ep.1), ep.2)

def hexDigitVal (c : Char) : Option Nat :=
  if '0'.toNat ≤ c.toNat ∧ c.toNat ≤ '9'.toNat then some (c.toNat - '0'.toNat)
  else if 'a'.toNat ≤ c.toNat ∧ c.toNat ≤ 'f'.toNat then some (c.toNat - 'a'.toNat + 10)
  else if 'A'.toNat ≤ c.toNat ∧ c.toNat ≤ 'F'.toNat then some (c.toNat - 'A'.toNat + 10)
  else none

def hexQuad (a b c d : Char) : Option Nat := do
  let va ← hexDigitVal a
  let vb ← hexDigitVal b
  let vc ← hexDigitVal c
  let vd ← hexDigitVal d
  some (((va * 16 + vb) * 16 + vc) * 16 + vd)

def simpleEscape : Char → Option Char
  | '"' => some '"'
  | '\\' => some '\\'
  | '/' => some '/'
  | 'b' => some (Char.ofNat 8)
  | 'f' => some (Char.ofNat 12)
  | 'n' => some '\n'
  | 'r' => some '\r'
  | 't' => some '\t'
  | _ => none

/-- Body of a JSON string literal, after the opening quote.  Mirrors the
strict `json.loads` scanner: raw control characters are rejected, escapes
are the standard eight plus `\uXXXX` (surrogate pairs combined; a lone
surrogate is rejected, as Lean `Char` cannot represent it). -/
def parseStringBody : List Char → Option (List Char × List Char)
  | [] => none
  | c :: cs =>
    if c == '"' then some ([], cs)
    else if c == '\\' then
      match cs with
      | [] => none
      | e :: cs₂ =>
        match simpleEscape e with
        | some ec =>
            match parseStringBody cs₂ with
            | some (body, rest) => some (ec :: body, rest)
            | none => none
        | none =>
          if e == 'u' then
            match cs₂ with
            | a :: b :: c₄ :: d :: cs₃ =>
              match hexQuad a b c₄ d with
              | none => none
              | some code =>
                if code < 0xd800 ∨ 0xe000 ≤ code then
                  match parseStringBody cs₃ with
                  | some (body, rest) => some (Char.ofNat code :: body, rest)
                  | none => none
                else if code < 0xdc00 then
                  match cs₃ with
                  | c₅ :: c₆ :: a₂ :: b₂ :: c₇ :: d₂ :: cs₅ =>
                    if c₅ == '\\' ∧ c₆ == 'u' then
                      match hexQuad a₂ b₂ c₇ d₂ with
                      | none => none
                      | some code₂ =>
                        if 0xdc00 ≤ code₂ ∧ code₂ < 0xe000 then
                          match parseStringBody cs₅ with
                          | some (body, rest) =>
                              some (Char.ofNat
                                (0x10000 + (code - 0xd800) * 0x400 + (code₂ - 0xdc00))
                                :: body, rest)
                          | none => none
                        else none
                    else none
                  | _ => none
                else none
            | _ => none
          else none
    else if c.toNat < 0x20 then none
    else
      match parseStringBody cs with
      | some (body, rest) => some (c :: body, rest)
      | none => none

mutual

/-- One JSON value (leading whitespace allowed), fuel-bounded. -/
def parseValue : Nat → List Char → Option (Json × List Char)
  | 0, _ => none
  | Nat.succ fuel, cs =>
    match skipWs cs with
    | [] => none
    | c :: cs₁ =>
      if c == '{' then parseObjBody fuel cs₁
      else if c == '[' then parseArrBody fuel cs₁
      else if c == '"' then
        match parseStringBody cs₁ with
        | some (body, rest) => some (.str (String.mk body), rest)
        | none => none
      else if c == 't' then
        match dropLiteral ['r', 'u', 'e'] cs₁ with
        | some rest => some (.bool true, rest)
        | none => none
      else if c == 'f' then
        match dropLiteral ['a', 'l', 's', 'e'] cs₁ with
        | some rest => some (.bool false, rest)
        | none => none
      else if c == 'n' then
        match dropLiteral ['u', 'l', 'l'] cs₁ with
        | some rest => some (.null, rest)
        | none => none
      else if c == 'N' then
        match dropLiteral ['a', 'N'] cs₁ with
        | some rest => some (.num "NaN", rest)
        | none => none
      else if c == 'I' then
        match dropLiteral ['n', 'f', 'i', 'n', 'i', 't', 'y'] cs₁ with
        | some rest => some (.num "Infinity", rest)
        | none => none
      else if c == '-' then
        match dropLiteral ['I', 'n', 'f', 'i', 'n', 'i', 't', 'y'] cs₁ with
        | some rest => some (.num "-Infinity", rest)
        | none =>
          match parseNumber (c :: cs₁) with
          | some (lex, rest) => some (.num lex, rest)
          | none => none
      else
        match parseNumber (c :: cs₁) with
        | some (lex, rest) => some (.num lex, rest)
        | none => none

def parseObjBody : Nat → List Char → Option (Json × List Char)
  | 0, _ => none
  | Nat.succ fuel, cs =>
    match skipWs cs with
    | '}' :: rest => some (.obj [], rest)
    | cs₁ => parseMembers fuel cs₁ []

def parseMembers : Nat → List Char → List (String × Json) → Option (Json × List Char)
  | 0, _, _ => none
  | Nat.succ fuel, cs, acc =>
    match skipWs cs with
    | '"' :: cs₁ =>
      match parseStringBody cs₁ with
      | none => none
      | some (key, cs₂) =>
        match skipWs cs₂ with
        | ':' :: cs₃ =>
          match parseValue fuel cs₃ with
          | none => none
          | some (v, cs₄) =>
            match skipWs cs₄ with
            | ',' :: cs₅ => parseMembers fuel cs₅ (acc ++ [(String.mk key, v)])
            | '}' :: cs₅ => some (.obj (acc ++ [(String.mk key, v)]), cs₅)
            | _ => none
        | _ => none
    | _ => none

def parseArrBody : Nat → List Char → Option (Json × List Char)
  | 0, _ => none
  | Nat.succ fuel, cs =>
    match skipWs cs with
    | ']' :: rest => some (.arr [], rest)
    | cs₁ => parseElems fuel cs₁ []

def parseElems : Nat → List Char → List Json → Option (Json × List Char)
  | 0, _, _ => none
  | Nat.succ fuel, cs, acc =>
    match parseValue fuel cs with
    | none => none
    | some (v, cs₁) =>
      match skipWs cs₁ with
      | ',' :: cs₂ => parseElems fuel cs₂ (acc ++ [v])
      | ']' :: cs₂ => some (.arr (acc ++ [v]), cs₂)
      | _ => none

end

/-- `json.loads`: parse one value, allow surrounding whitespace, reject
trailing garbage; `none` is the `JSONDecodeError` outcome.  The fuel is
always sufficient: every nested parse consumes at least one character. -/
def jsonLoads (s : String) : Option Json :=
  let cs := s.toList
  match parseValue (6 * cs.length + 6) cs with
  | some (v, rest) => if (skipWs rest).isEmpty then some v else none
  | none => none

/-! ### Python string helpers: `str.strip` and `str.replace` -/

/-- Characters stripped by Python `str.strip()` (the ASCII / Latin-1 part of
`str.isspace`; exotic Unicode spaces are not modelled). -/
def pyIsSpace (c : Char) : Bool :=
  c == ' ' || c == '\t' || c == '\n' || c == '\r' ||
  c.toNat == 0x0b || c.toNat == 0x0c || c.toNat == 0x1c || c.toNat == 0x1d ||
  c.toNat == 0x1e || c.toNat == 0x1f || c.toNat == 0x85 || c.toNat == 0xa0

def stripChars (cs : List Char) : List Char :=
  ((cs.dropWhile pyIsSpace).reverse.dropWhile pyIsSpace).reverse

def listStartsWith : List Char → List Char → Bool
  | _, [] => true
  | [], _ :: _ => false
  | c :: cs, p :: ps => c == p && listStartsWith cs ps

/-- Python `s.replace(pat, '')` for a nonempty pattern: delete every
leftmost, non-overlapping occurrence.  Structural recursion on a fuel
argument (kept equal to the free length so reduction stays definitional);
`removeAll` starts it at the input length, which always suffices because
every step consumes at least one character. -/
def removeAllAux (pat : List Char) : Nat → List Char → List Char
  | 0, cs => cs
  | _, [] => []
  | Nat.succ fuel, c :: cs =>
    if listStartsWith (c :: cs) pat && !pat.isEmpty then
      removeAllAux pat fuel (cs.drop (pat.length - 1))
    else
      c :: removeAllAux pat fuel cs

def removeAll (pat cs : List Char) : List Char :=
  removeAllAux pat cs.length cs

/-! ### Python dicts as insertion-ordered association lists -/

/-- A Python `dict` whose keys and values are JSON values, as an
insertion-ordered association list. -/
abbrev PyDict := List (Json × Json)

def keyMatch (k : Json) (p : Json × Json) : Bool := decide (p.1 = k)

def dictHasKey (d : PyDict) (k : Json) : Bool := d.any (keyMatch k)

/-- `d[k] = v`: replace the value in place if the key is present (keeping
its position), otherwise append the new pair. -/
def dictInsert (d : PyDict) (k v : Json) : PyDict :=
  if dictHasKey d k then d.map (fun p => if p.1 = k then (p.1, v) else p)
  else d ++ [(k, v)]

def dictGet (d : PyDict) (k : Json) : Option Json :=
  (d.find? (keyMatch k)).map (fun p => p.2)

def dictKeys (d : PyDict) : List Json := d.map (fun p => p.1)

def dictInsertAll (d : PyDict) (ps : List (Json × Json)) : PyDict :=
  ps.foldl (fun acc p => dictInsert acc p.1 p.2) d

/-- The dict built by `json.loads` from an object's member list (duplicate
keys: first position, last value). -/
def objToDict (kvs : List (String × Json)) : PyDict :=
  dictInsertAll [] (kvs.map (fun kv => (Json.str kv.1, kv.2)))

/-- Python `hash(k)` succeeds on everything except lists and dicts. -/
def jsonHashable : Json → Bool
  | .arr _ => false
  | .obj _ => false
  | _ => true

/-- One element of a key/value sequence passed to `dict.update`: a
two-element list, a two-character string, or a two-key dict (iterating a
dict yields its keys). -/
def seqPair : Json → Option (Json × Json)
  | .arr l =>
    match l with
    | [k, v] => some (k, v)
    | _ => none
  | .str s =>
    match s.toList with
    | [a, b] => some (.str (String.mk [a]), .str (String.mk [b]))
    | _ => none
  | .obj kvs =>
    match dictKeys (objToDict kvs) with
    | [k₁, k₂] => some (k₁, k₂)
    | _ => none
  | _ => none

/-- `dict.update` on a non-dict iterable: pairs are merged one by one; a
malformed element or unhashable key stops the merge (the flag is `false`
for the raised exception), keeping the updates already made. -/
def dictUpdateSeq (d : PyDict) : List Json → PyDict × Bool
  | [] => (d, true)
  | e :: rest =>
    match seqPair e with
    | none => (d, false)
    | some (k, v) =>
      if jsonHashable k then dictUpdateSeq (dictInsert d k v) rest
      else (d, false)

/-- `d.update(parsed)` for an arbitrary `json.loads` result.  The flag is
`false` when Python would raise (`TypeError` / `ValueError`); the dict
component is the (possibly partially) mutated dict in either case. -/
def dictUpdate (d : PyDict) : Json → PyDict × Bool
  | .obj kvs => (dictInsertAll d (kvs.map (fun kv => (Json.str kv.1, kv.2))), true)
  | .arr es => dictUpdateSeq d es
  | .str s => if s.isEmpty then (d, true) else (d, false)
  | _ => (d, false)

/-! ### The result normalizer (lines 213-243 of `app.py`) -/

/-- The ten schema field names, in the order of the `extracted_data`
literal. -/
def schemaFields : List String :=
  ["aptitudMedica", "diagnostico1", "cie10_diagnostico1", "observaciones1",
   "diagnostico2", "cie10_diagnostico2", "observaciones2",
   "hallazgoMetabolico", "hallazgoOsteomuscular", "otrosAntecedentes"]

/-- The `extracted_data` default record: every schema field mapped to the
sentinel `'No especificado'`. -/
def defaultExtracted : PyDict :=
  [(Json.str "aptitudMedica", Json.str "No especificado"),
   (Json.str "diagnostico1", Json.str "No especificado"),
   (Json.str "cie10_diagnostico1", Json.str "No especificado"),
   (Json.str "observaciones1", Json.str "No especificado"),
   (Json.str "diagnostico2", Json.str "No especificado"),
   (Json.str "cie10_diagnostico2", Json.str "No especificado"),
   (Json.str "observaciones2", Json.str "No especificado"),
   (Json.str "hallazgoMetabolico", Json.str "No especificado"),
   (Json.str "hallazgoOsteomuscular", Json.str "No especificado"),
   (Json.str "otrosAntecedentes", Json.str "No especificado")]

/-- `json_str = respuesta.strip().replace('```json', '').replace('```', '').strip()`. -/
def cleanResponse (s : String) : String :=
  String.mk (stripChars (removeAll "```".toList (removeAll "```json".toList (stripChars s.toList))))

/-- The parsing step of `process_pdf`: clean the raw model text, run
`json.loads`, and `extracted_data.update(parsed)`; every exception in that
`try` block is caught, leaving `extracted_data` as mutated so far. -/
def normalize (respuesta : String) : PyDict :=
  match jsonLoads (cleanResponse respuesta) with
  | none => defaultExtracted
  | some parsed => (dictUpdate defaultExtracted parsed).1

/-! ### External collaborators and the pipeline -/

/-- Outcome of the `requests.post` call to the identity registry. -/
inductive RegistryOutcome where
  | timeout
  | netError (msg : String)
  | response (status : Nat) (body : String)

/-- The external collaborators of the pipeline: `pdf2image`'s
`convert_from_bytes` (pages as opaque image handles, or the renderer's
exception message), the PIL + base64 page encoding, the OpenAI chat call
(message content of the first choice, or the exception message of a failed
call / missing API key), and the registry's network behaviour. -/
structure Env where
  convert_from_bytes : List Nat → Except String (List Nat)
  encode : Nat → String
  model_response : List String → Except String String
  registry : String → RegistryOutcome

/-- `extract_cedula_from_filename`: leftmost match of the regex `(\d{10})`,
i.e. the first position where ten consecutive digit characters start. -/
def findRun10 : List Char → Option (List Char)
  | [] => none
  | c :: cs =>
    if ((c :: cs).take 10).length = 10 ∧ ((c :: cs).take 10).all Char.isDigit then
      some ((c :: cs).take 10)
    else findRun10 cs

def extract_cedula_from_filename (filename : String) : Option String :=
  (findRun10 filename.toList).map String.mk

/-- Python truthiness of a `json.loads` value (`not data`). -/
def pyTruthy : Json → Bool
  | .null => false
  | .bool b => b
  | .num lex =>
      let mantissa := lex.toList.takeWhile (fun c => c ≠ 'e' ∧ c ≠ 'E')
      let digits := mantissa.filter Char.isDigit
      ¬ (digits ≠ [] ∧ digits.all (· = '0'))
  | .str s => ¬ s.isEmpty
  | .arr l => ¬ l.isEmpty
  | .obj kvs => ¬ (objToDict kvs).isEmpty

/-- `data.get(k)` on the parsed registry body (`none` when the key is
absent; a non-dict body raises `AttributeError`, handled at the call
site). -/
def jsonObjGet (kvs : List (String × Json)) (k : String) : Option Json :=
  dictGet (objToDict kvs) (Json.str k)

/-- Lines 60-65 of `get_cedula_info`: `if not data or not data.get('nombres'):
return None / return data`.  A non-dict body raises `AttributeError` at
`.get`, which the catch-all `except` also turns into `None`. -/
def acceptRegistryBody (data : Json) : Option Json :=
  if ¬ pyTruthy data then none
  else
    match data with
    | .obj kvs =>
      match jsonObjGet kvs "nombres" with
      | none => none
      | some v => if pyTruthy v then some (Json.obj kvs) else none
    | _ => none

/-- `get_cedula_info` (lines 44-78): every failure mode of the registry
call degrades to `None` through the `except` ladder; data without a truthy
`nombres` field is also rejected. -/
def get_cedula_info (env : Env) (cedula : String) : Option Json :=
  match env.registry cedula with
  | .timeout => none
  | .netError _ => none
  | .response status body =>
    if status ≠ 200 then none
    else
      match jsonLoads body with
      | none => none
      | some data => acceptRegistryBody data

/-- `convert_pdf_to_images` (lines 80-111): renderer errors re-raise, the
first `min 5` pages are encoded in order, and an empty page list raises. -/
def convert_pdf_to_images (env : Env) (pdf_bytes : List Nat) : Except String (List String) :=
  match env.convert_from_bytes pdf_bytes with
  | .error e => .error e
  | .ok images =>
    let base64_images := (images.take 5).map env.encode
    if base64_images.isEmpty then .error "No se pudieron extraer imágenes del PDF"
    else .ok base64_images

/-- The boundary calls a single `process_pdf` run makes, in order. -/
inductive Call where
  | lookup
  | convert
  | model
deriving DecidableEq

/-- `cedula_info.get(k, 'Sin datos')` in the return-value assembly. -/
def infoField (cedula_info : Option Json) (k : String) : Json :=
  match cedula_info with
  | some (.obj kvs) => (jsonObjGet kvs k).getD (Json.str "Sin datos")
  | _ => Json.str "Sin datos"

/-- `process_pdf` (lines 113-256), paired with the trace of boundary calls
it makes.  A conversion failure raises with the wrapped message of
line 138; a model-call failure raises as-is; the result dict is the
literal of line 250 (`**extracted_data` merged last, so parsed keys with
the same names override the identity fields). -/
def process_pdf (env : Env) (pdf_bytes : List Nat) (filename : String) :
    Except String PyDict × List Call :=
  let cedula := extract_cedula_from_filename filename
  let cedula_info : Option Json :=
    match cedula with
    | some c => get_cedula_info env c
    | none => none
  let trace0 : List Call :=
    match cedula with
    | some _ => [Call.lookup]
    | none => []
  match convert_pdf_to_images env pdf_bytes with
  | .error e =>
      (.error ("No se pudo convertir el PDF a imágenes: " ++ e), trace0 ++ [Call.convert])
  | .ok images =>
    match env.model_response images with
    | .error e => (.error e, trace0 ++ [Call.convert, Call.model])
    | .ok respuesta =>
      let extracted := normalize respuesta
      let base : PyDict :=
        [(Json.str "fileName", Json.str filename),
         (Json.str "cedula",
            Json.str (match cedula with | some c => c | none => "No detectada")),
         (Json.str "nombre", infoField cedula_info "nombres"),
         (Json.str "apellido", infoField cedula_info "apellidos")]
      (.ok (dictInsertAll base extracted), trace0 ++ [Call.convert, Call.model])

/-! ### The batch orchestrator (lines 294-334 of `app.py`) -/

/-- One uploaded file: original name and raw bytes. -/
structure Job where
  filename : String
  bytes : List Nat

/-- An entry of the `errores` list. -/
structure ErrEntry where
  archivo : String
  error : String
deriving DecidableEq

/-- The JSON body of the 200 response of `process_clinical_history`. -/
structure BatchResult where
  success : Bool
  procesados : Nat
  errores : Nat
  data : List PyDict
  errores_detalle : Option (List ErrEntry)

/-- The per-job body of the loop: the empty-buffer guard of line 307
raises `'Archivo vacío'` before any boundary call; otherwise the job runs
`process_pdf`.  Paired with the job's boundary-call trace. -/
def process_one_traced (env : Env) (j : Job) : Except String PyDict × List Call :=
  if j.bytes.length = 0 then (.error "Archivo vacío", [])
  else process_pdf env j.bytes j.filename

def process_one (env : Env) (j : Job) : Except String PyDict :=
  (process_one_traced env j).1

/-- The per-job `try/except`: a success is appended to `resultados`, any
exception to `errores` with the job's filename. -/
def batch_step (env : Env) (acc : List PyDict × List ErrEntry) (j : Job) :
    List PyDict × List ErrEntry :=
  match process_one env j with
  | .ok datos => (acc.1 ++ [datos], acc.2)
  | .error e => (acc.1, acc.2 ++ [⟨j.filename, e⟩])

/-- The loop and final `jsonify` of `process_clinical_history`
(lines 294-334); the HTTP-layer guards before the loop are outside the
pipeline. -/
def process_clinical_history (env : Env) (jobs : List Job) : BatchResult :=
  let res := jobs.foldl (batch_step env) ([], [])
  { success := decide (0 < res.1.length)
    procesados := res.1.length
    errores := res.2.length
    data := res.1
    errores_detalle := if res.2.isEmpty then none else some res.2 }

/-- The Document Result a job contributes to `data`, if any. -/
def jobOk (env : Env) (j : Job) : Option PyDict :=
  (process_one env j).toOption

/-- The failure entry a job contributes to `errores`, if any. -/
def jobErr (env : Env) (j : Job) : Option ErrEntry :=
  match process_one env j with
  | .ok _ => none
  | .error e => some ⟨j.filename, e⟩

/-- The last value a key/value list assigns to the key `k`, as seen by
`dict(...)` / `dict.update` (later pairs win). -/
def objLastVal (kvs : List (String × Json)) (k : String) : Option Json :=
  kvs.foldl (fun acc kv => if kv.1 = k then some kv.2 else acc) none

/-- A registry body `get_cedula_info` accepts: a JSON object whose
`nombres` member is present and truthy. -/
def hasRecognizableName : Json → Bool
  | .obj kvs =>
    (match jsonObjGet kvs "nombres" with
     | some v => pyTruthy v
     | none => false)
  | _ => false

/-- Demo environment: rasterization fails exactly on the byte buffer `[2]`,
the model always answers the empty JSON object. -/
def envBatchDemo : Env :=
  { convert_from_bytes := fun b => if b = [2] then .error "PDF corrupto" else .ok [0]
    encode := fun i => toString i
    model_response := fun _ => .ok "\x7b\x7d"
    registry := fun _ => .timeout }

def jobsBatchDemo : List Job :=
  [⟨"doc1.pdf", [1]⟩, ⟨"doc2.pdf", [2]⟩, ⟨"doc3.pdf", [3]⟩]

/-- Demo environment: rasterization always fails. -/
def envAllFail : Env :=
  { convert_from_bytes := fun _ => .error "kaput"
    encode := fun i => toString i
    model_response := fun _ => .ok "\x7b\x7d"
    registry := fun _ => .timeout }

/-- Demo environment: a seven-page document. -/
def envSevenPages : Env :=
  { convert_from_bytes := fun _ => .ok [10, 11, 12, 13, 14, 15, 16]
    encode := fun i => toString i
    model_response := fun _ => .ok "\x7b\x7d"
    registry := fun _ => .timeout }

/-- Demo environment: one registry behaviour per identity number. -/
def envRegDemo : Env :=
  { convert_from_bytes := fun _ => .ok [0]
    encode := fun i => toString i
    model_response := fun _ => .ok "\x7b\x7d"
    registry := fun c =>
      if c = "0000000001" then .timeout
      else if c = "0000000002" then .netError "refused"
      else if c = "0000000003" then .response 500 "\x7b\x7d"
      else if c = "0000000004" then .response 200 "nope"
      else if c = "0000000005" then .response 200 "\x7b\"apellidos\":\"X\"\x7d"
      else .response 200 "\x7b\"nombres\":\"ANA\",\"apellidos\":\"PEREZ\"\x7d" }

/-- Demo environment: the model answers a JSON object that itself contains
a `cedula` key. -/
def envOverride : Env :=
  { convert_from_bytes := fun _ => .ok [0]
    encode := fun _ => "i"
    model_response := fun _ => .ok "\x7b\"cedula\": 7\x7d"
    registry := fun _ => .timeout }

/-- The Document Result `envOverride` produces for `scan.pdf`. -/
def resOverride : PyDict :=
  match process_one envOverride ⟨"scan.pdf", [1]⟩ with
  | .ok d => d
  | .error _ => []

/-! ### Dict lemmas -/

theorem insertFun_fst (k v : Json) (p : Json × Json) :
    (if p.1 = k then (p.1, v) else p).1 = p.1 := by
  by_cases h : p.1 = k <;> simp [h]

theorem dictKeys_map_insertFun (d : PyDict) (k v : Json) :
    dictKeys (d.map (fun p => if p.1 = k then (p.1, v) else p)) = dictKeys d := by
  induction d with
  | nil => rfl
  | cons p rest ih =>
      simp only [dictKeys, List.map_cons] at ih ⊢
      rw [insertFun_fst, ih]

theorem dictKeys_insert (d : PyDict) (k v : Json) :
    dictKeys (dictInsert d k v) = dictKeys d ∨
      dictKeys (dictInsert d k v) = dictKeys d ++ [k] := by
  unfold dictInsert
  by_cases h : dictHasKey d k = true
  · simp only [h, if_true]
    exact Or.inl (dictKeys_map_insertFun d k v)
  · simp only [h, if_false, Bool.not_eq_true] at *
    simp [dictKeys]

theorem dictHasKey_iff_mem (d : PyDict) (k : Json) :
    dictHasKey d k = true ↔ k ∈ dictKeys d := by
  constructor
  · intro h
    rcases List.any_eq_true.mp h with ⟨p, hp, hm⟩
    exact List.mem_map.mpr ⟨p, hp, of_decide_eq_true hm⟩
  · intro h
    rcases List.mem_map.mp h with ⟨p, hp, he⟩
    exact List.any_eq_true.mpr ⟨p, hp, decide_eq_true he⟩

theorem dictGet_map_insertFun_ne (d : PyDict) (k v q : Json) (hqk : q ≠ k) :
    dictGet (d.map (fun p => if p.1 = k then (p.1, v) else p)) q = dictGet d q := by
  induction d with
  | nil => rfl
  | cons p rest ih =>
      simp only [List.map_cons, dictGet, List.find?] at ih ⊢
      rw [show keyMatch q (if p.1 = k then (p.1, v) else p) = keyMatch q p by
        simp [keyMatch, insertFun_fst]]
      by_cases hpq : keyMatch q p = true
      · simp only [hpq]
        have hp1 : p.1 = q := by simpa [keyMatch] using hpq
        have : ¬ p.1 = k := fun h => hqk (hp1 ▸ h)
        simp [this]
      · simp only [Bool.not_eq_true] at hpq
        simp only [hpq]
        exact ih

theorem dictGet_insert (d : PyDict) (k v q : Json) :
    dictGet (dictInsert d k v) q = if q = k then some v else dictGet d q := by
  unfold dictInsert
  by_cases hk : dictHasKey d k = true
  · simp only [hk, if_true]
    by_cases hqk : q = k
    · subst hqk
      induction d with
      | nil => simp [dictHasKey] at hk
      | cons p rest ih =>
          simp only [dictHasKey, List.any_cons, Bool.or_eq_true, keyMatch] at hk
          simp only [List.map_cons, dictGet, List.find?]
          by_cases hp : p.1 = q
          · simp [hp, keyMatch]
          · rcases hk with hk | hk
            · exact absurd (of_decide_eq_true hk) hp
            · simp only [hp, if_false, keyMatch, hp, decide_eq_true_eq]
              have := ih (by simpa [dictHasKey, keyMatch] using hk)
              simpa [dictGet, keyMatch] using this
    · simp only [hqk, if_false]
      exact dictGet_map_insertFun_ne d k v q hqk
  · simp only [hk, if_false]
    simp only [Bool.not_eq_true] at hk
    induction d with
    | nil =>
        by_cases hqk : q = k
        · simp [hqk, dictGet, List.find?, keyMatch]
        · have hd : decide (k = q) = false := decide_eq_false (fun h => hqk h.symm)
          simp [dictGet, List.find?, keyMatch, hqk, hd]
    | cons p rest ih =>
        simp only [dictHasKey, List.any_cons, Bool.or_eq_false_iff] at hk ⊢
        simp only [List.cons_append, dictGet, List.find?]
        by_cases hp : keyMatch q p = true
        · have hp1 : p.1 = q := by simpa [keyMatch] using hp
          have hqk : ¬ q = k := by
            intro h
            subst h
            simp [keyMatch] at hk
            exact hk.1 hp1
          simp [hp, hqk]
        · simp only [Bool.not_eq_true] at hp
          simp only [hp]
          have := ih hk.2
          simpa [dictGet] using this

/-- The value `d.update(...)` leaves at key `q` after merging the pair
list `ps` in order: the last value for `q` in `ps`, else the old value. -/
def lastVal (ps : List (Json × Json)) (q : Json) : Option Json :=
  ps.foldl (fun acc p => if p.1 = q then some p.2 else acc) none

theorem lastVal_foldl_acc (q : Json) (ps : List (Json × Json)) :
    ∀ acc : Option Json,
      ps.foldl (fun acc p => if p.1 = q then some p.2 else acc) acc =
        match lastVal ps q with
        | some v => some v
        | none => acc := by
  induction ps with
  | nil => intro acc; simp [lastVal]
  | cons p rest ih =>
      intro acc
      simp only [List.foldl_cons, lastVal] at ih ⊢
      rw [ih, ih (if p.1 = q then some p.2 else none)]
      by_cases hp : p.1 = q <;> cases h : rest.foldl (fun acc p => if p.1 = q then some p.2 else acc) none <;>
        simp [hp, h]

theorem lastVal_cons (p : Json × Json) (ps : List (Json × Json)) (q : Json) :
    lastVal (p :: ps) q =
      match lastVal ps q with
      | some v => some v
      | none => if p.1 = q then some p.2 else none := by
  simpa [lastVal] using lastVal_foldl_acc q ps (if p.1 = q then some p.2 else none)

theorem dictGet_insertAll (ps : List (Json × Json)) :
    ∀ (d : PyDict) (q : Json),
      dictGet (dictInsertAll d ps) q =
        match lastVal ps q with
        | some v => some v
        | none => dictGet d q := by
  induction ps with
  | nil => intro d q; simp [dictInsertAll, lastVal]
  | cons p rest ih =>
      intro d q
      simp only [dictInsertAll, List.foldl_cons] at ih ⊢
      rw [ih (dictInsert d p.1 p.2) q, lastVal_cons, dictGet_insert]
      cases h : lastVal rest q with
      | some v => simp [h]
      | none =>
          by_cases hq : q = p.1
          · simp [h, hq]
          · have hpq : ¬ p.1 = q := fun hh => hq hh.symm
            simp [h, hq, hpq]

theorem dictKeys_insertAll (ps : List (Json × Json)) :
    ∀ d : PyDict, ∃ extra,
      dictKeys (dictInsertAll d ps) = dictKeys d ++ extra ∧
        ∀ e ∈ extra, e ∈ ps.map (fun p => p.1) ∧ ¬ e ∈ dictKeys d := by
  induction ps with
  | nil => intro d; exact ⟨[], by simp [dictInsertAll]⟩
  | cons p rest ih =>
      intro d
      have hstep : dictInsertAll d (p :: rest) = dictInsertAll (dictInsert d p.1 p.2) rest := by
        simp [dictInsertAll]
      rcases ih (dictInsert d p.1 p.2) with ⟨extra, hkeys, hmem⟩
      rcases dictKeys_insert d p.1 p.2 with h | h
      · refine ⟨extra, by rw [hstep, hkeys, h], ?_⟩
        intro e he
        rcases hmem e he with ⟨h₁, h₂⟩
        rw [h] at h₂
        exact ⟨by simp only [List.map_cons, List.mem_cons]; exact Or.inr h₁, h₂⟩
      · refine ⟨p.1 :: extra, by rw [hstep, hkeys, h]; simp, ?_⟩
        intro e he
        rcases List.mem_cons.mp he with he | he
        · have hnk : ¬ p.1 ∈ dictKeys d := by
            intro hmem'
            have hhk : dictHasKey d p.1 = true := (dictHasKey_iff_mem d p.1).mpr hmem'
            have h' : dictKeys (dictInsert d p.1 p.2) = dictKeys d := by
              simp [dictInsert, hhk, dictKeys_map_insertFun]
            rw [h'] at h
            have hlen := congrArg List.length h
            simp at hlen
          subst he
          exact ⟨by simp, hnk⟩
        · rcases hmem e he with ⟨h₁, h₂⟩
          rw [h] at h₂
          simp only [List.mem_append, List.mem_singleton, not_or] at h₂
          exact ⟨by simp only [List.map_cons, List.mem_cons]; exact Or.inr h₁, h₂.1⟩

theorem dictKeys_updateSeq (es : List Json) :
    ∀ d : PyDict, ∃ extra, dictKeys (dictUpdateSeq d es).1 = dictKeys d ++ extra := by
  induction es with
  | nil => intro d; exact ⟨[], by simp [dictUpdateSeq]⟩
  | cons e rest ih =>
      intro d
      unfold dictUpdateSeq
      cases hsp : seqPair e with
      | none => exact ⟨[], by simp⟩
      | some kv =>
          by_cases hh : jsonHashable kv.1 = true
          · simp only [hh, if_true]
            rcases ih (dictInsert d kv.1 kv.2) with ⟨extra, hkeys⟩
            rcases dictKeys_insert d kv.1 kv.2 with h | h
            · exact ⟨extra, by rw [hkeys, h]⟩
            · exact ⟨kv.1 :: extra, by rw [hkeys, h]; simp⟩
          · simp only [Bool.not_eq_true] at hh
            exact ⟨[], by simp [hh]⟩

/-- The record returned by `normalize` always extends the ten-field default
record: `dict.update` never removes or reorders existing keys. -/
theorem normalize_keys (text : String) :
    ∃ extra, dictKeys (normalize text) = dictKeys defaultExtracted ++ extra := by
  unfold normalize
  cases h : jsonLoads (cleanResponse text) with
  | none => exact ⟨[], by simp⟩
  | some v =>
      cases v with
      | obj kvs =>
          simp only [dictUpdate]
          rcases dictKeys_insertAll (kvs.map (fun kv => (Json.str kv.1, kv.2))) defaultExtracted with
            ⟨extra, hkeys, _⟩
          exact ⟨extra, hkeys⟩
      | arr es => exact dictKeys_updateSeq es defaultExtracted
      | null => exact ⟨[], by simp [dictUpdate]⟩
      | bool b => exact ⟨[], by simp [dictUpdate]⟩
      | num lex => exact ⟨[], by simp [dictUpdate]⟩
      | str s =>
          by_cases hs : s.isEmpty <;> exact ⟨[], by simp [dictUpdate, hs]⟩

/-! ### Batch loop characterization -/

theorem foldl_batch_step (env : Env) (jobs : List Job) :
    ∀ acc : List PyDict × List ErrEntry,
      jobs.foldl (batch_step env) acc =
        (acc.1 ++ jobs.filterMap (jobOk env), acc.2 ++ jobs.filterMap (jobErr env)) := by
  induction jobs with
  | nil => intro acc; simp
  | cons j rest ih =>
      intro acc
      simp only [List.foldl_cons, List.filterMap_cons]
      rw [ih (batch_step env acc j)]
      unfold batch_step jobOk jobErr
      cases h : process_one env j with
      | ok d => simp [h, Except.toOption]
      | error e => simp [h, Except.toOption]

theorem pch_data (env : Env) (jobs : List Job) :
    (process_clinical_history env jobs).data = jobs.filterMap (jobOk env) := by
  unfold process_clinical_history
  rw [foldl_batch_step env jobs ([], [])]
  simp

theorem pch_errores_detalle (env : Env) (jobs : List Job) :
    (process_clinical_history env jobs).errores_detalle =
      if (jobs.filterMap (jobErr env)).isEmpty then none
      else some (jobs.filterMap (jobErr env)) := by
  unfold process_clinical_history
  rw [foldl_batch_step env jobs ([], [])]
  simp

theorem pch_errores (env : Env) (jobs : List Job) :
    (process_clinical_history env jobs).errores = (jobs.filterMap (jobErr env)).length := by
  unfold process_clinical_history
  rw [foldl_batch_step env jobs ([], [])]
  simp

theorem pch_procesados (env : Env) (jobs : List Job) :
    (process_clinical_history env jobs).procesados = (jobs.filterMap (jobOk env)).length := by
  unfold process_clinical_history
  rw [foldl_batch_step env jobs ([], [])]
  simp

theorem pch_success (env : Env) (jobs : List Job) :
    (process_clinical_history env jobs).success =
      decide (0 < (jobs.filterMap (jobOk env)).length) := by
  unfold process_clinical_history
  rw [foldl_batch_step env jobs ([], [])]
  simp

/-- Every job contributes to exactly one of `data` and `errores`. -/
theorem jobOk_or_jobErr (env : Env) (j : Job) :
    (jobOk env j).isSome = true ↔ jobErr env j = none := by
  unfold jobOk jobErr
  cases h : process_one env j <;> simp [Except.toOption]

/-! ### Identity-number extraction: regex `(\d{10})` -/

/-- Ten consecutive digit characters start at index `i`. -/
def hasRun10At (cs : List Char) (i : Nat) : Bool :=
  decide (((cs.drop i).take 10).length = 10) && ((cs.drop i).take 10).all Char.isDigit

theorem findRun10_spec (cs : List Char) :
    (∀ w, findRun10 cs = some w →
      ∃ i, hasRun10At cs i = true ∧ (∀ j, j < i → hasRun10At cs j = false) ∧
        w = (cs.drop i).take 10) ∧
    (findRun10 cs = none → ∀ i, hasRun10At cs i = false) := by
  induction cs with
  | nil =>
      constructor
      · intro w hw; cases hw
      · intro _ i
        simp [hasRun10At]
  | cons c rest ih =>
      constructor
      · intro w hw
        unfold findRun10 at hw
        by_cases h0 : ((c :: rest).take 10).length = 10 ∧ ((c :: rest).take 10).all Char.isDigit
        · rw [if_pos h0] at hw
          refine ⟨0, ?_, ?_, ?_⟩
          · unfold hasRun10At
            rw [List.drop_zero, decide_eq_true h0.1, h0.2]
            rfl
          · intro j hj; omega
          · simpa using hw.symm
        · rw [if_neg h0] at hw
          rcases ih.1 w hw with ⟨i, hi, hmin, hweq⟩
          refine ⟨i + 1, ?_, ?_, ?_⟩
          · simpa [hasRun10At, List.drop_succ_cons] using hi
          · intro j hj
            cases j with
            | zero =>
                simp only [hasRun10At, List.drop_zero]
                rw [Bool.and_eq_false_iff]
                by_cases hl : ((c :: rest).take 10).length = 10
                · right
                  by_cases ha : ((c :: rest).take 10).all Char.isDigit
                  · exact absurd ⟨hl, ha⟩ h0
                  · simpa using ha
                · left; simpa using hl
            | succ j' =>
                have := hmin j' (by omega)
                simpa [hasRun10At, List.drop_succ_cons] using this
          · simpa [List.drop_succ_cons] using hweq
      · intro hn i
        unfold findRun10 at hn
        by_cases h0 : ((c :: rest).take 10).length = 10 ∧ ((c :: rest).take 10).all Char.isDigit
        · rw [if_pos h0] at hn; cases hn
        · rw [if_neg h0] at hn
          cases i with
          | zero =>
              simp only [hasRun10At, List.drop_zero]
              rw [Bool.and_eq_false_iff]
              by_cases hl : ((c :: rest).take 10).length = 10
              · right
                by_cases ha : ((c :: rest).take 10).all Char.isDigit
                · exact absurd ⟨hl, ha⟩ h0
                · simpa using ha
              · left; simpa using hl
          | succ i' =>
              have := ih.2 hn i'
              simpa [hasRun10At, List.drop_succ_cons] using this

/-! ### Further helper lemmas -/

theorem objLastVal_eq (kvs : List (String × Json)) (k : String) :
    lastVal (kvs.map (fun kv => (Json.str kv.1, kv.2))) (Json.str k) = objLastVal kvs k := by
  unfold lastVal objLastVal
  rw [List.foldl_map]
  congr 1
  funext acc kv
  by_cases h : kv.1 = k
  · simp [h]
  · simp [h]

theorem lastVal_none_iff (d : PyDict) (q : Json) :
    lastVal d q = none ↔ ∀ p ∈ d, p.1 ≠ q := by
  induction d with
  | nil => simp [lastVal]
  | cons p rest ih =>
      rw [lastVal_cons]
      constructor
      · intro h
        cases hr : lastVal rest q with
        | some v => rw [hr] at h; cases h
        | none =>
            rw [hr] at h
            intro p' hp'
            rcases List.mem_cons.mp hp' with hp' | hp'
            · subst hp'
              intro hq
              rw [if_pos hq] at h
              cases h
            · exact ih.mp hr p' hp'
      · intro h
        have hr : lastVal rest q = none := ih.mpr (fun p' hp' => h p' (List.mem_cons_of_mem _ hp'))
        rw [hr, if_neg (h p (List.mem_cons_self _ _))]

theorem dictGet_none_iff (d : PyDict) (q : Json) :
    dictGet d q = none ↔ ∀ p ∈ d, p.1 ≠ q := by
  unfold dictGet
  rw [Option.map_eq_none', List.find?_eq_none]
  constructor
  · intro h p hp hq
    have := h p hp
    simp [keyMatch, hq] at this
  · intro h p hp
    simp [keyMatch, h p hp]

theorem dictGet_default_fields :
    ∀ k ∈ schemaFields,
      dictGet defaultExtracted (Json.str k) = some (Json.str "No especificado") := by
  decide

theorem filterMap_length_all_some {α β : Type} (f : α → Option β) (l : List α)
    (h : ∀ a ∈ l, (f a).isSome = true) : (l.filterMap f).length = l.length := by
  induction l with
  | nil => rfl
  | cons a rest ih =>
      cases hf : f a with
      | none => have := h a (List.mem_cons_self _ _); rw [hf] at this; cases this
      | some b =>
          simp only [List.filterMap_cons, hf, List.length_cons]
          rw [ih (fun a ha => h a (List.mem_cons_of_mem _ ha))]

theorem hasRun10At_ge (cs : List Char) (i : Nat) (h : cs.length ≤ i) :
    hasRun10At cs i = false := by
  unfold hasRun10At
  rw [List.drop_eq_nil_of_le h]
  rfl

theorem convert_pdf_ok (env : Env) (bytes : List Nat) (images : List Nat)
    (hc : env.convert_from_bytes bytes = .ok images) (hne : images ≠ []) :
    convert_pdf_to_images env bytes = .ok ((images.take 5).map env.encode) := by
  unfold convert_pdf_to_images
  rw [hc]
  have hie : ((images.take 5).map env.encode).isEmpty = false := by
    cases images with
    | nil => exact absurd rfl hne
    | cons a l => simp
  simp [hie, hne]

theorem acceptRegistryBody_none (v : Json) (hrec : hasRecognizableName v = false) :
    acceptRegistryBody v = none := by
  cases v with
  | obj kvs =>
      simp only [hasRecognizableName] at hrec
      by_cases ht : pyTruthy (Json.obj kvs) = true
      · cases hg : jsonObjGet kvs "nombres" with
        | none => simp [acceptRegistryBody, hg, ht]
        | some w =>
            simp only [hg] at hrec
            simp [acceptRegistryBody, hg, hrec, ht]
      · simp only [Bool.not_eq_true] at ht
        simp [acceptRegistryBody, ht]
  | null => rfl
  | bool b => cases b <;> rfl
  | num lex =>
      by_cases ht : pyTruthy (Json.num lex) = true <;> simp [acceptRegistryBody, ht]
  | str s =>
      by_cases ht : pyTruthy (Json.str s) = true <;> simp [acceptRegistryBody, ht]
  | arr l =>
      by_cases ht : pyTruthy (Json.arr l) = true <;> simp [acceptRegistryBody, ht]

theorem acceptRegistryBody_some (v d : Json) (h : acceptRegistryBody v = some d) :
    hasRecognizableName d = true := by
  cases v with
  | obj kvs =>
      by_cases ht : pyTruthy (Json.obj kvs) = true
      · cases hg : jsonObjGet kvs "nombres" with
        | none => simp [acceptRegistryBody, hg, ht] at h
        | some w =>
            by_cases hw : pyTruthy w = true
            · have hd : d = Json.obj kvs := by
                simp [acceptRegistryBody, hg, ht, hw] at h
                exact h.symm
              subst hd
              simp [hasRecognizableName, hg, hw]
            · simp [acceptRegistryBody, hg, ht, hw] at h
      · simp only [Bool.not_eq_true] at ht
        simp [acceptRegistryBody, ht] at h
  | null => simp [acceptRegistryBody, pyTruthy] at h
  | bool b => cases b <;> simp [acceptRegistryBody, pyTruthy] at h
  | num lex =>
      by_cases ht : pyTruthy (Json.num lex) = true <;> simp [acceptRegistryBody, ht] at h
  | str s =>
      by_cases ht : pyTruthy (Json.str s) = true <;> simp [acceptRegistryBody, ht] at h
  | arr l =>
      by_cases ht : pyTruthy (Json.arr l) = true <;> simp [acceptRegistryBody, ht] at h

theorem filterMap_ne_nil_iff {α β : Type} (f : α → Option β) (l : List α) :
    l.filterMap f ≠ [] ↔ ∃ a ∈ l, ∃ b, f a = some b := by
  rw [Ne, List.filterMap_eq_nil_iff]
  push_neg
  constructor
  · rintro ⟨a, ha, hne⟩
    cases hf : f a with
    | none => exact absurd hf hne
    | some b => exact ⟨a, ha, b, hf⟩
  · rintro ⟨a, ha, b, hb⟩
    exact ⟨a, ha, by simp [hb]⟩

theorem process_one_convert_error (env : Env) (j : Job) (e : String)
    (he : env.convert_from_bytes j.bytes = .error e) (hb : j.bytes ≠ []) :
    process_one env j = .error ("No se pudo convertir el PDF a imágenes: " ++ e) := by
  unfold process_one process_one_traced
  rw [if_neg (by simpa [List.length_eq_zero] using hb)]
  unfold process_pdf
  have hc : convert_pdf_to_images env j.bytes = .error e := by
    unfold convert_pdf_to_images
    rw [he]
  rw [hc]

theorem process_pdf_ok_shape (env : Env) (bytes : List Nat) (fn : String)
    (images : List Nat) (resp : String)
    (hc : env.convert_from_bytes bytes = .ok images) (hne : images ≠ [])
    (hm : env.model_response ((images.take 5).map env.encode) = .ok resp) :
    (process_pdf env bytes fn).1 = Except.ok (dictInsertAll
      [(Json.str "fileName", Json.str fn),
       (Json.str "cedula",
          Json.str (match extract_cedula_from_filename fn with
            | some c => c
            | none => "No detectada")),
       (Json.str "nombre",
          infoField (match extract_cedula_from_filename fn with
            | some c => get_cedula_info env c
            | none => none) "nombres"),
       (Json.str "apellido",
          infoField (match extract_cedula_from_filename fn with
            | some c => get_cedula_info env c
            | none => none) "apellidos")]
      (normalize resp)) := by
  unfold process_pdf
  rw [convert_pdf_ok env bytes images hc hne]
  dsimp only
  rw [hm]

/-! ### Claim theorems -/

/-- C3: for every valid PDF byte buffer, `convert_pdf_to_images` returns
the page images truncated to the first 5 pages in original page order (a
7-page PDF yields exactly 5 images); it fails with a conversion error when
the buffer is not decodable (the renderer raises), and when zero pages are
produced. -/
theorem C3_rasterize_truncates (env : Env) (pdf_bytes : List Nat) :
    (∀ e, env.convert_from_bytes pdf_bytes = .error e →
      convert_pdf_to_images env pdf_bytes = .error e) ∧
    (env.convert_from_bytes pdf_bytes = .ok [] →
      convert_pdf_to_images env pdf_bytes =
        .error "No se pudieron extraer imágenes del PDF") ∧
    (∀ images, env.convert_from_bytes pdf_bytes = .ok images → images ≠ [] →
      convert_pdf_to_images env pdf_bytes = .ok ((images.take 5).map env.encode) ∧
      ((images.take 5).map env.encode).length = min images.length 5) ∧
    (∀ images, env.convert_from_bytes pdf_bytes = .ok images → images.length = 7 →
      convert_pdf_to_images env pdf_bytes = .ok ((images.take 5).map env.encode) ∧
      ((images.take 5).map env.encode).length = 5) := by
  refine ⟨?_, ?_, ?_, ?_⟩
  · intro e he
    unfold convert_pdf_to_images
    rw [he]
  · intro he
    unfold convert_pdf_to_images
    rw [he]
    rfl
  · intro images hc hne
    refine ⟨convert_pdf_ok env pdf_bytes images hc hne, ?_⟩
    simp [List.length_take, Nat.min_comm]
  · intro images hc hlen
    have hne : images ≠ [] := by
      intro h
      rw [h] at hlen
      cases hlen
    refine ⟨convert_pdf_ok env pdf_bytes images hc hne, ?_⟩
    simp [List.length_take, hlen]

/-- C3 witness: a concrete seven-page document yields exactly its first
five pages, in order; concrete corrupt and empty documents fail with the
conversion errors. -/
theorem C3_witness :
    convert_pdf_to_images envSevenPages [9] = .ok ["10", "11", "12", "13", "14"] ∧
    convert_pdf_to_images envBatchDemo [2] = .error "PDF corrupto" ∧
    convert_pdf_to_images envAllFail [1] = .error "kaput" := by
  refine ⟨?_, ?_, ?_⟩
  · have h := ((C3_rasterize_truncates envSevenPages [9]).2.2.2
      [10, 11, 12, 13, 14, 15, 16] rfl rfl).1
    exact h
  · exact (C3_rasterize_truncates envBatchDemo [2]).1 "PDF corrupto" rfl
  · exact (C3_rasterize_truncates envAllFail [1]).1 "kaput" rfl

/-- C4: `extract_cedula_from_filename` matches the leftmost occurrence of
ten consecutive digits anywhere in the filename and returns exactly that
ten-character run; when no position of the filename starts a ten-digit run
it returns `none`. -/
theorem C4_identity_from_filename (fn : String) :
    ((∃ i, hasRun10At fn.toList i = true) →
      ∃ i, hasRun10At fn.toList i = true ∧
        (∀ j, j < i → hasRun10At fn.toList j = false) ∧
        extract_cedula_from_filename fn =
          some (String.mk ((fn.toList.drop i).take 10))) ∧
    ((∀ i, i < fn.toList.length → hasRun10At fn.toList i = false) →
      extract_cedula_from_filename fn = none) := by
  constructor
  · intro hex
    cases hw : findRun10 fn.toList with
    | none =>
        rcases hex with ⟨i, hi⟩
        rw [(findRun10_spec fn.toList).2 hw i] at hi
        cases hi
    | some w =>
        rcases (findRun10_spec fn.toList).1 w hw with ⟨i, hi, hmin, hweq⟩
        refine ⟨i, hi, hmin, ?_⟩
        unfold extract_cedula_from_filename
        rw [hw, hweq]
        rfl
  · intro hall
    cases hw : findRun10 fn.toList with
    | none =>
        unfold extract_cedula_from_filename
        rw [hw]
        rfl
    | some w =>
        rcases (findRun10_spec fn.toList).1 w hw with ⟨i, hi, _, _⟩
        by_cases hlt : i < fn.toList.length
        · rw [hall i hlt] at hi
          cases hi
        · rw [hasRun10At_ge fn.toList i (by omega)] at hi
          cases hi

/-- C4 witness: the theorem applied to a filename with an embedded
ten-digit run and to one with none; the run extracted is the exact digits
of the filename. -/
theorem C4_witness :
    (∃ i, hasRun10At "informe_0912345678_v2.pdf".toList i = true ∧
      (∀ j, j < i → hasRun10At "informe_0912345678_v2.pdf".toList j = false) ∧
      extract_cedula_from_filename "informe_0912345678_v2.pdf" =
        some (String.mk (("informe_0912345678_v2.pdf".toList.drop i).take 10))) ∧
    extract_cedula_from_filename "informe_0912345678_v2.pdf" = some "0912345678" ∧
    extract_cedula_from_filename "scan.pdf" = none := by
  refine ⟨(C4_identity_from_filename "informe_0912345678_v2.pdf").1 ⟨8, by decide⟩, rfl, ?_⟩
  exact (C4_identity_from_filename "scan.pdf").2 (by decide)

/-- C5: `get_cedula_info` never raises past its boundary: it is a total
`Option`-valued function, and it returns `none` (not an error) on each of
timeout, network failure, non-200 status, a body `json.loads` rejects, and
a parsed body without a recognizable truthy `nombres` field; any `some`
result does carry a recognizable name field. -/
theorem C5_lookup_never_raises (env : Env) (c : String) :
    (env.registry c = .timeout → get_cedula_info env c = none) ∧
    (∀ m, env.registry c = .netError m → get_cedula_info env c = none) ∧
    (∀ s b, env.registry c = .response s b → s ≠ 200 → get_cedula_info env c = none) ∧
    (∀ b, env.registry c = .response 200 b → jsonLoads b = none →
      get_cedula_info env c = none) ∧
    (∀ b v, env.registry c = .response 200 b → jsonLoads b = some v →
      hasRecognizableName v = false → get_cedula_info env c = none) ∧
    (∀ d, get_cedula_info env c = some d → hasRecognizableName d = true) := by
  refine ⟨?_, ?_, ?_, ?_, ?_, ?_⟩
  · intro h
    unfold get_cedula_info
    rw [h]
  · intro m h
    unfold get_cedula_info
    rw [h]
  · intro s b h hs
    unfold get_cedula_info
    rw [h]
    simp [hs]
  · intro b h hj
    unfold get_cedula_info
    rw [h]
    simp [hj]
  · intro b v h hj hrec
    unfold get_cedula_info
    rw [h]
    dsimp only
    rw [if_neg (fun hh => hh rfl), hj]
    exact acceptRegistryBody_none v hrec
  · intro d h
    unfold get_cedula_info at h
    cases hr : env.registry c with
    | timeout => rw [hr] at h; cases h
    | netError m => rw [hr] at h; cases h
    | response s b =>
        rw [hr] at h
        dsimp only at h
        by_cases hs : s = 200
        · subst hs
          rw [if_neg (fun hh => hh rfl)] at h
          cases hj : jsonLoads b with
          | none => rw [hj] at h; cases h
          | some v =>
              rw [hj] at h
              exact acceptRegistryBody_some v d h
        · rw [if_pos hs] at h
          cases h

/-- C5 witness: the theorem applied to one concrete registry behaviour of
each failure mode, plus a successful lookup. -/
theorem C5_witness :
    get_cedula_info envRegDemo "0000000001" = none ∧
    get_cedula_info envRegDemo "0000000002" = none ∧
    get_cedula_info envRegDemo "0000000003" = none ∧
    get_cedula_info envRegDemo "0000000004" = none ∧
    get_cedula_info envRegDemo "0000000005" = none ∧
    get_cedula_info envRegDemo "0000000006" =
      some (Json.obj [("nombres", Json.str "ANA"), ("apellidos", Json.str "PEREZ")]) := by
  refine ⟨(C5_lookup_never_raises envRegDemo "0000000001").1 rfl,
    (C5_lookup_never_raises envRegDemo "0000000002").2.1 "refused" rfl,
    (C5_lookup_never_raises envRegDemo "0000000003").2.2.1 500 "\x7b\x7d" rfl (by decide),
    (C5_lookup_never_raises envRegDemo "0000000004").2.2.2.1 "nope" rfl rfl,
    (C5_lookup_never_raises envRegDemo "0000000005").2.2.2.2.1
      "\x7b\"apellidos\":\"X\"\x7d" (Json.obj [("apellidos", Json.str "X")]) rfl rfl rfl,
    rfl⟩

/-- C1 (amended): on a successful object parse, `normalize` overlays the
parsed keys onto the ten-field default record — a schema field missing from
the parsed object keeps the sentinel and a present one takes its (last)
parsed value — but keys outside the schema are NOT ignored: they are
appended to the record after the ten fields, so the record has the ten
fields plus every extra parsed key. -/
theorem C1_overlay_amended (text : String) (kvs : List (String × Json))
    (h : jsonLoads (cleanResponse text) = some (Json.obj kvs)) :
    (∀ k, k ∈ schemaFields →
      dictGet (normalize text) (Json.str k) =
        some ((objLastVal kvs k).getD (Json.str "No especificado"))) ∧
    (∀ k v, objLastVal kvs k = some v →
      dictGet (normalize text) (Json.str k) = some v) ∧
    (∃ extra, dictKeys (normalize text) = dictKeys defaultExtracted ++ extra ∧
      ∀ e ∈ extra, e ∈ kvs.map (fun kv => Json.str kv.1) ∧
        ¬ e ∈ dictKeys defaultExtracted) := by
  have hn : normalize text =
      dictInsertAll defaultExtracted (kvs.map (fun kv => (Json.str kv.1, kv.2))) := by
    unfold normalize
    rw [h]
    rfl
  refine ⟨?_, ?_, ?_⟩
  · intro k hk
    rw [hn, dictGet_insertAll, objLastVal_eq]
    cases ho : objLastVal kvs k with
    | some v => rfl
    | none => rw [dictGet_default_fields k hk]; rfl
  · intro k v ho
    rw [hn, dictGet_insertAll, objLastVal_eq, ho]
  · rw [hn]
    rcases dictKeys_insertAll (kvs.map (fun kv => (Json.str kv.1, kv.2))) defaultExtracted with
      ⟨extra, hkeys, hmem⟩
    refine ⟨extra, hkeys, ?_⟩
    intro e he
    rcases hmem e he with ⟨h₁, h₂⟩
    refine ⟨?_, h₂⟩
    simpa [List.map_map, Function.comp] using h₁

/-- C1 counterexample: a parsed object with the single unknown key `extra`
yields an eleven-entry record that keeps that key, so the returned record
does not have exactly the ten schema fields and extra keys are not
ignored. -/
theorem C1_counterexample :
    normalize "\x7b\"extra\":\"x\"\x7d" =
      defaultExtracted ++ [(Json.str "extra", Json.str "x")] ∧
    (normalize "\x7b\"extra\":\"x\"\x7d").length = 11 ∧
    Json.str "extra" ∈ dictKeys (normalize "\x7b\"extra\":\"x\"\x7d") ∧
    ¬ Json.str "extra" ∈ dictKeys defaultExtracted :=
  ⟨rfl, rfl, by decide, by decide⟩

/-- C1 witness: the amended overlay theorem applied to the concrete model
output with one schema key and one extra key. -/
theorem C1_witness :
    (∀ k, k ∈ schemaFields →
      dictGet (normalize "\x7b\"aptitudMedica\":\"APTO\",\"extra\":\"x\"\x7d")
          (Json.str k) =
        some ((objLastVal [("aptitudMedica", Json.str "APTO"), ("extra", Json.str "x")] k).getD
          (Json.str "No especificado"))) ∧
    (∀ k v,
      objLastVal [("aptitudMedica", Json.str "APTO"), ("extra", Json.str "x")] k = some v →
      dictGet (normalize "\x7b\"aptitudMedica\":\"APTO\",\"extra\":\"x\"\x7d")
        (Json.str k) = some v) ∧
    (∃ extra,
      dictKeys (normalize "\x7b\"aptitudMedica\":\"APTO\",\"extra\":\"x\"\x7d") =
        dictKeys defaultExtracted ++ extra ∧
      ∀ e ∈ extra,
        e ∈ [("aptitudMedica", Json.str "APTO"), ("extra", Json.str "x")].map
            (fun kv => Json.str kv.1) ∧
        ¬ e ∈ dictKeys defaultExtracted) :=
  C1_overlay_amended "\x7b\"aptitudMedica\":\"APTO\",\"extra\":\"x\"\x7d"
    [("aptitudMedica", Json.str "APTO"), ("extra", Json.str "x")] rfl

/-- C6 (amended): `normalize` never raises — it is total and its result
always extends the ten-field default record.  On any parse failure (for
example the input `not json`) it returns the all-sentinel default record
unchanged, and likewise for a parsed non-object that is null, a boolean, a
number, a string, or the empty array; but a parsed non-object that is a
non-empty sequence of key/value pairs (for example a list of two-element
string lists) is overlaid onto the record just as an object would be, so
the record is not returned unchanged for it. -/
theorem C6_normalize_never_raises :
    (∀ text, jsonLoads (cleanResponse text) = none → normalize text = defaultExtracted) ∧
    normalize "not json" = defaultExtracted ∧
    (∀ text, ∃ extra, dictKeys (normalize text) = dictKeys defaultExtracted ++ extra) ∧
    (∀ text v, jsonLoads (cleanResponse text) = some v →
      (v = Json.null ∨ (∃ b, v = Json.bool b) ∨ (∃ lex, v = Json.num lex) ∨
        (∃ s, v = Json.str s) ∨ v = Json.arr []) →
      normalize text = defaultExtracted) := by
  refine ⟨?_, rfl, normalize_keys, ?_⟩
  · intro text hp
    unfold normalize
    rw [hp]
  · intro text v hp hv
    unfold normalize
    rw [hp]
    rcases hv with rfl | ⟨b, rfl⟩ | ⟨lex, rfl⟩ | ⟨s, rfl⟩ | rfl
    · rfl
    · rfl
    · rfl
    · by_cases hs : s.isEmpty <;> simp [dictUpdate, hs]
    · rfl

/-- C6 counterexample: `[["a","b"]]` parses to a non-object (a list of
pairs), yet `dict.update` merges it, so `normalize` does not return the
default record unchanged. -/
theorem C6_counterexample :
    jsonLoads (cleanResponse "[[\"a\",\"b\"]]") =
      some (Json.arr [Json.arr [Json.str "a", Json.str "b"]]) ∧
    normalize "[[\"a\",\"b\"]]" = defaultExtracted ++ [(Json.str "a", Json.str "b")] ∧
    normalize "[[\"a\",\"b\"]]" ≠ defaultExtracted :=
  ⟨rfl, rfl, by decide⟩

/-- C6 witness: the amended theorem applied to a concrete unparsable text
and a concrete parsed non-object. -/
theorem C6_witness :
    normalize "oops(" = defaultExtracted ∧ normalize "5" = defaultExtracted :=
  ⟨C6_normalize_never_raises.1 "oops(" rfl,
   C6_normalize_never_raises.2.2.2 "5" (Json.num "5") rfl
     (Or.inr (Or.inr (Or.inl ⟨"5", rfl⟩)))⟩

/-- C8: `normalize` strips whitespace and the markdown fences
(` ```json ` / ` ``` `) before parsing: on the fenced input the cleaned
text is the bare JSON object, and the result record has
`aptitudMedica = "APTO"` with the other nine fields at the sentinel. -/
theorem C8_fence_stripping :
    cleanResponse "```json\n\x7b\"aptitudMedica\":\"APTO\"\x7d\n```" =
      "\x7b\"aptitudMedica\":\"APTO\"\x7d" ∧
    normalize "```json\n\x7b\"aptitudMedica\":\"APTO\"\x7d\n```" =
      [(Json.str "aptitudMedica", Json.str "APTO"),
       (Json.str "diagnostico1", Json.str "No especificado"),
       (Json.str "cie10_diagnostico1", Json.str "No especificado"),
       (Json.str "observaciones1", Json.str "No especificado"),
       (Json.str "diagnostico2", Json.str "No especificado"),
       (Json.str "cie10_diagnostico2", Json.str "No especificado"),
       (Json.str "observaciones2", Json.str "No especificado"),
       (Json.str "hallazgoMetabolico", Json.str "No especificado"),
       (Json.str "hallazgoOsteomuscular", Json.str "No especificado"),
       (Json.str "otrosAntecedentes", Json.str "No especificado")] :=
  ⟨rfl, rfl⟩

/-- C2: every per-job exception is caught at the per-job boundary and
recorded as a failure entry carrying that job's filename and message, and
the remaining jobs are processed: the batch's `data` and failure list are
the per-job outcomes in input order.  In the concrete three-job batch
whose second job has corrupt bytes: two processed, one failure naming
`doc2.pdf`, and jobs 1 and 3 in `data` in their original order. -/
theorem C2_per_job_isolation :
    (∀ env jobs,
      (process_clinical_history env jobs).data = jobs.filterMap (jobOk env) ∧
      (process_clinical_history env jobs).errores =
        (jobs.filterMap (jobErr env)).length ∧
      (process_clinical_history env jobs).errores_detalle =
        (if (jobs.filterMap (jobErr env)).isEmpty then none
         else some (jobs.filterMap (jobErr env)))) ∧
    (∀ (env : Env) (jobs : List Job) (j : Job) (e : String),
      j ∈ jobs → process_one env j = Except.error e →
      ErrEntry.mk j.filename e ∈ jobs.filterMap (jobErr env)) ∧
    ((process_clinical_history envBatchDemo jobsBatchDemo).procesados = 2 ∧
     (process_clinical_history envBatchDemo jobsBatchDemo).errores = 1 ∧
     (process_clinical_history envBatchDemo jobsBatchDemo).errores_detalle =
       some [⟨"doc2.pdf", "No se pudo convertir el PDF a imágenes: PDF corrupto"⟩] ∧
     (process_clinical_history envBatchDemo jobsBatchDemo).data.map
        (fun d => dictGet d (Json.str "fileName")) =
       [some (Json.str "doc1.pdf"), some (Json.str "doc3.pdf")]) := by
  refine ⟨fun env jobs =>
      ⟨pch_data env jobs, pch_errores env jobs, pch_errores_detalle env jobs⟩,
    ?_, rfl, rfl, rfl, rfl⟩
  intro env jobs j e hj he
  exact List.mem_filterMap.mpr ⟨j, hj, by simp [jobErr, he]⟩

/-- C2 witness: the failure-entry clause applied to the corrupt job of the
concrete batch. -/
theorem C2_witness :
    ErrEntry.mk "doc2.pdf" "No se pudo convertir el PDF a imágenes: PDF corrupto" ∈
      jobsBatchDemo.filterMap (jobErr envBatchDemo) :=
  C2_per_job_isolation.2.1 envBatchDemo jobsBatchDemo ⟨"doc2.pdf", [2]⟩
    "No se pudo convertir el PDF a imágenes: PDF corrupto"
    (by simp [jobsBatchDemo]) rfl

/-- C7: the Batch Result has `success` true iff at least one job produced
a Document Result, `procesados` equal to the number of Document Results,
`errores` equal to the number of failures, and `errores_detalle` null
exactly when there are no failures; when every job fails rasterization,
`success` is false, `data` is empty and `errores` counts all jobs. -/
theorem C7_batch_result_shape :
    (∀ env jobs,
      ((process_clinical_history env jobs).success = true ↔
        (process_clinical_history env jobs).data ≠ []) ∧
      ((process_clinical_history env jobs).success = true ↔
        ∃ j ∈ jobs, ∃ d, jobOk env j = some d) ∧
      (process_clinical_history env jobs).procesados =
        (process_clinical_history env jobs).data.length ∧
      (process_clinical_history env jobs).errores =
        (jobs.filterMap (jobErr env)).length ∧
      ((process_clinical_history env jobs).errores_detalle = none ↔
        jobs.filterMap (jobErr env) = [])) ∧
    (∀ env jobs,
      (∀ j ∈ jobs, ∃ e, env.convert_from_bytes j.bytes = .error e ∧ j.bytes ≠ []) →
      (process_clinical_history env jobs).success = false ∧
      (process_clinical_history env jobs).data = [] ∧
      (process_clinical_history env jobs).errores = jobs.length) := by
  constructor
  · intro env jobs
    refine ⟨?_, ?_, ?_, pch_errores env jobs, ?_⟩
    · rw [pch_success, pch_data]
      simp [List.length_pos]
    · rw [pch_success]
      simp only [decide_eq_true_eq, List.length_pos]
      exact filterMap_ne_nil_iff (jobOk env) jobs
    · rw [pch_procesados, pch_data]
    · rw [pch_errores_detalle]
      cases hfm : jobs.filterMap (jobErr env) with
      | nil => simp
      | cons a l => simp
  · intro env jobs h
    have hko : ∀ j ∈ jobs, jobOk env j = none := by
      intro j hj
      rcases h j hj with ⟨e, he, hb⟩
      simp [jobOk, process_one_convert_error env j e he hb, Except.toOption]
    have hdata : jobs.filterMap (jobOk env) = [] := List.filterMap_eq_nil_iff.mpr hko
    refine ⟨?_, ?_, ?_⟩
    · rw [pch_success, hdata]
      rfl
    · rw [pch_data, hdata]
    · rw [pch_errores]
      apply filterMap_length_all_some
      intro j hj
      rcases h j hj with ⟨e, he, hb⟩
      simp [jobErr, process_one_convert_error env j e he hb]

/-- C7 witness: the all-fail clause applied to a concrete two-job batch
whose rasterizer always raises. -/
theorem C7_witness :
    (process_clinical_history envAllFail [⟨"a.pdf", [1]⟩, ⟨"b.pdf", [2]⟩]).success = false ∧
    (process_clinical_history envAllFail [⟨"a.pdf", [1]⟩, ⟨"b.pdf", [2]⟩]).data = [] ∧
    (process_clinical_history envAllFail [⟨"a.pdf", [1]⟩, ⟨"b.pdf", [2]⟩]).errores = 2 :=
  C7_batch_result_shape.2 envAllFail [⟨"a.pdf", [1]⟩, ⟨"b.pdf", [2]⟩]
    (by
      intro j hj
      refine ⟨"kaput", rfl, ?_⟩
      rcases List.mem_cons.mp hj with h | h
      · subst h; simp
      · rcases List.mem_cons.mp h with h | h
        · subst h; simp
        · cases h)

/-- C9: a job whose uploaded byte buffer is empty raises `'Archivo vacío'`
before any boundary call (its call trace is empty, so neither rasterization
nor the model is invoked), is recorded as that failure entry, is counted in
`errores`, and the surrounding jobs are processed exactly as without it. -/
theorem C9_empty_file_skips_pipeline :
    (∀ env f, process_one_traced env ⟨f, []⟩ = (Except.error "Archivo vacío", [])) ∧
    (∀ env f pre post,
      (process_clinical_history env (pre ++ ⟨f, []⟩ :: post)).data =
        pre.filterMap (jobOk env) ++ post.filterMap (jobOk env) ∧
      (process_clinical_history env (pre ++ ⟨f, []⟩ :: post)).errores =
        (pre.filterMap (jobErr env)).length + 1 + (post.filterMap (jobErr env)).length ∧
      (process_clinical_history env (pre ++ ⟨f, []⟩ :: post)).errores_detalle =
        some (pre.filterMap (jobErr env) ++
          ErrEntry.mk f "Archivo vacío" :: post.filterMap (jobErr env))) := by
  have hok : ∀ (env : Env) (f : String), jobOk env ⟨f, []⟩ = none := fun env f => rfl
  have herr : ∀ (env : Env) (f : String),
      jobErr env ⟨f, []⟩ = some ⟨f, "Archivo vacío"⟩ := fun env f => rfl
  refine ⟨fun env f => rfl, ?_⟩
  intro env f pre post
  have hfo : (pre ++ (⟨f, []⟩ : Job) :: post).filterMap (jobOk env) =
      pre.filterMap (jobOk env) ++ post.filterMap (jobOk env) := by
    rw [List.filterMap_append, List.filterMap_cons, hok]
  have hfm : (pre ++ (⟨f, []⟩ : Job) :: post).filterMap (jobErr env) =
      pre.filterMap (jobErr env) ++
        ErrEntry.mk f "Archivo vacío" :: post.filterMap (jobErr env) := by
    rw [List.filterMap_append, List.filterMap_cons, herr]
  refine ⟨?_, ?_, ?_⟩
  · rw [pch_data, hfo]
  · rw [pch_errores, hfm]
    simp only [List.length_append, List.length_cons]
    omega
  · rw [pch_errores_detalle, hfm]
    have hne : (pre.filterMap (jobErr env) ++
        ErrEntry.mk f "Archivo vacío" :: post.filterMap (jobErr env)).isEmpty = false := by
      cases hp : pre.filterMap (jobErr env) <;> simp
    simp [hne]

/-- C10 (amended): a successfully processed job's Document Result always
contains the keys `fileName`, `cedula`, `nombre` and `apellido`, and they
hold the documented defaults (`'No detectada'` when the filename has no
ten-digit run; `'Sin datos'` when enrichment is unavailable) whenever the
parsed model output does not itself contain a key of the same name — a
model output key named `cedula`, `nombre` or `apellido` overrides the
identity field, because `**extracted_data` is merged last into the result
literal. -/
theorem C10_identity_fields_amended (env : Env) (fn : String) (bytes : List Nat)
    (images : List Nat) (resp : String)
    (hb : bytes ≠ [])
    (hc : env.convert_from_bytes bytes = .ok images) (hne : images ≠ [])
    (hm : env.model_response ((images.take 5).map env.encode) = .ok resp) :
    ∃ r, process_one env ⟨fn, bytes⟩ = Except.ok r ∧
      Json.str "fileName" ∈ dictKeys r ∧
      Json.str "cedula" ∈ dictKeys r ∧
      Json.str "nombre" ∈ dictKeys r ∧
      Json.str "apellido" ∈ dictKeys r ∧
      (extract_cedula_from_filename fn = none →
        dictGet (normalize resp) (Json.str "cedula") = none →
        dictGet r (Json.str "cedula") = some (Json.str "No detectada")) ∧
      ((∀ c, extract_cedula_from_filename fn = some c → get_cedula_info env c = none) →
        dictGet (normalize resp) (Json.str "nombre") = none →
        dictGet r (Json.str "nombre") = some (Json.str "Sin datos")) ∧
      ((∀ c, extract_cedula_from_filename fn = some c → get_cedula_info env c = none) →
        dictGet (normalize resp) (Json.str "apellido") = none →
        dictGet r (Json.str "apellido") = some (Json.str "Sin datos")) := by
  have hpo : process_one env ⟨fn, bytes⟩ = (process_pdf env bytes fn).1 := by
    unfold process_one process_one_traced
    rw [if_neg (by simpa [List.length_eq_zero] using hb)]
  have hshape := process_pdf_ok_shape env bytes fn images resp hc hne hm
  refine ⟨_, by rw [hpo, hshape], ?_, ?_, ?_, ?_, ?_, ?_, ?_⟩
  · rcases dictKeys_insertAll (normalize resp) _ with ⟨extra, hkeys, _⟩
    rw [hkeys]
    simp [dictKeys]
  · rcases dictKeys_insertAll (normalize resp) _ with ⟨extra, hkeys, _⟩
    rw [hkeys]
    simp [dictKeys]
  · rcases dictKeys_insertAll (normalize resp) _ with ⟨extra, hkeys, _⟩
    rw [hkeys]
    simp [dictKeys]
  · rcases dictKeys_insertAll (normalize resp) _ with ⟨extra, hkeys, _⟩
    rw [hkeys]
    simp [dictKeys]
  · intro hcd hng
    rw [dictGet_insertAll]
    have hlv : lastVal (normalize resp) (Json.str "cedula") = none :=
      (lastVal_none_iff _ _).mpr ((dictGet_none_iff _ _).mp hng)
    rw [hlv]
    simp only [hcd]
    rfl
  · intro hlk hng
    rw [dictGet_insertAll]
    have hlv : lastVal (normalize resp) (Json.str "nombre") = none :=
      (lastVal_none_iff _ _).mpr ((dictGet_none_iff _ _).mp hng)
    rw [hlv]
    cases hx : extract_cedula_from_filename fn with
    | none =>
        simp only [hx]
        rfl
    | some c =>
        simp only [hx, hlk c hx]
        rfl
  · intro hlk hng
    rw [dictGet_insertAll]
    have hlv : lastVal (normalize resp) (Json.str "apellido") = none :=
      (lastVal_none_iff _ _).mpr ((dictGet_none_iff _ _).mp hng)
    rw [hlv]
    cases hx : extract_cedula_from_filename fn with
    | none =>
        simp only [hx]
        rfl
    | some c =>
        simp only [hx, hlk c hx]
        rfl

/-- C10 counterexample: with no ten-digit run in the filename, a model
output containing `"cedula": 7` makes the Document Result's `cedula` the
number `7` — not the string `'No detectada'` and not a string at all —
because the parsed keys are merged after the identity fields. -/
theorem C10_counterexample :
    extract_cedula_from_filename "scan.pdf" = none ∧
    process_one envOverride ⟨"scan.pdf", [1]⟩ = Except.ok resOverride ∧
    dictGet resOverride (Json.str "cedula") = some (Json.num "7") ∧
    Json.num "7" ≠ Json.str "No detectada" :=
  ⟨rfl, rfl, rfl, fun h => Json.noConfusion h⟩

/-- C10 witness: the amended theorem applied to a concrete job with no
identity data and a model output without identity keys. -/
theorem C10_witness :
    ∃ r, process_one envBatchDemo ⟨"scan.pdf", [1]⟩ = Except.ok r ∧
      Json.str "fileName" ∈ dictKeys r ∧
      Json.str "cedula" ∈ dictKeys r ∧
      Json.str "nombre" ∈ dictKeys r ∧
      Json.str "apellido" ∈ dictKeys r ∧
      (extract_cedula_from_filename "scan.pdf" = none →
        dictGet (normalize "\x7b\x7d") (Json.str "cedula") = none →
        dictGet r (Json.str "cedula") = some (Json.str "No detectada")) ∧
      ((∀ c, extract_cedula_from_filename "scan.pdf" = some c →
          get_cedula_info envBatchDemo c = none) →
        dictGet (normalize "\x7b\x7d") (Json.str "nombre") = none →
        dictGet r (Json.str "nombre") = some (Json.str "Sin datos")) ∧
      ((∀ c, extract_cedula_from_filename "scan.pdf" = some c →
          get_cedula_info envBatchDemo c = none) →
        dictGet (normalize "\x7b\x7d") (Json.str "apellido") = none →
        dictGet r (Json.str "apellido") = some (Json.str "Sin datos")) :=
  C10_identity_fields_amended envBatchDemo "scan.pdf" [1] [0] "\x7b\x7d"
    (by simp) rfl (by simp) rfl

end Backend
